import Mathlib

/-!
Verification of the rental-dashboard billing core: the schedule generator
`get_due_dates`, the aggregate status computation `calculate_status`
(from `rental_tracker_app.py`), and the per-record status derivation from the
Add Payment form (from `rental_dashboard_streamlit.py`).

Dates are embedded as (year, month, day) triples with the comparison and
month-arithmetic semantics of Python's `datetime.date` and
`dateutil.relativedelta`.  The `while current <= until` loop of
`get_due_dates` is embedded with explicit fuel, so that its possible
non-termination (no validation of the frequency) is representable: `none`
means the loop does not terminate.
-/

namespace Rental

/-- Leap-year test, as Python's `calendar.isleap`. -/
def isLeap (y : Nat) : Bool :=
  y % 4 == 0 && (y % 100 != 0 || y % 400 == 0)

/-- Number of days in month `m` (1..12) of year `y`, as `calendar.monthrange`. -/
def daysInMonth (y m : Nat) : Nat :=
  if m = 2 then (if isLeap y then 29 else 28)
  else if m = 4 ∨ m = 6 ∨ m = 9 ∨ m = 11 then 30
  else 31

/-- A calendar date, as Python's `datetime.date`. -/
structure Date where
  year : Nat
  month : Nat
  day : Nat
deriving DecidableEq

/-- The validity constraint `datetime.date`'s constructor enforces on
month and day. -/
def Date.Valid (d : Date) : Prop :=
  1 ≤ d.month ∧ d.month ≤ 12 ∧ 1 ≤ d.day ∧ d.day ≤ daysInMonth d.year d.month

instance (d : Date) : Decidable d.Valid := by
  unfold Date.Valid; infer_instance

/-- Python's `<=` on dates: lexicographic on (year, month, day). -/
def Date.ble (a b : Date) : Bool :=
  decide (a.year < b.year ∨ (a.year = b.year ∧
    (a.month < b.month ∨ (a.month = b.month ∧ a.day ≤ b.day))))

/-- Python's `<` on dates: strict lexicographic order. -/
def Date.blt (a b : Date) : Bool :=
  decide (a.year < b.year ∨ (a.year = b.year ∧
    (a.month < b.month ∨ (a.month = b.month ∧ a.day < b.day))))

/-- Months elapsed since year 0 month 1: `12 * year + (month - 1)`. -/
def monthIndex (d : Date) : Nat := 12 * d.year + (d.month - 1)

/-- `d + relativedelta(months=n)` (dateutil): move `n` months in the
year/month plane (floor divmod by 12) and clamp the day to the last day of
the target month. -/
def addMonths (d : Date) (n : Int) : Date :=
  let total : Int := 12 * (d.year : Int) + ((d.month : Int) - 1) + n
  let y : Nat := (total / 12).toNat
  let m : Nat := (total % 12).toNat + 1
  ⟨y, m, min d.day (daysInMonth y m)⟩

theorem daysInMonth_ge (y m : Nat) : 28 ≤ daysInMonth y m := by
  unfold daysInMonth
  split
  · split <;> omega
  · split <;> omega

theorem ble_iff (a b : Date) : Date.ble a b = true ↔
    (a.year < b.year ∨ (a.year = b.year ∧
      (a.month < b.month ∨ (a.month = b.month ∧ a.day ≤ b.day)))) := by
  simp [Date.ble]

theorem blt_iff (a b : Date) : Date.blt a b = true ↔
    (a.year < b.year ∨ (a.year = b.year ∧
      (a.month < b.month ∨ (a.month = b.month ∧ a.day < b.day)))) := by
  simp [Date.blt]

theorem ble_refl (a : Date) : Date.ble a a = true := by
  simp [Date.ble]

theorem ble_trans {a b c : Date} (h1 : Date.ble a b = true)
    (h2 : Date.ble b c = true) : Date.ble a c = true := by
  rw [ble_iff] at h1 h2 ⊢
  omega

theorem ble_of_not_ble {a b : Date} (h : Date.ble a b = false) :
    Date.ble b a = true := by
  have h2 : ¬ (a.year < b.year ∨ (a.year = b.year ∧
      (a.month < b.month ∨ (a.month = b.month ∧ a.day ≤ b.day)))) := by
    rw [← ble_iff, h]; simp
  rw [ble_iff]
  omega

theorem monthIndex_le_of_ble {a b : Date} (ha : a.Valid) (hb : b.Valid)
    (h : Date.ble a b = true) : monthIndex a ≤ monthIndex b := by
  obtain ⟨ha1, ha2, -, -⟩ := ha
  obtain ⟨hb1, hb2, -, -⟩ := hb
  rw [ble_iff] at h
  unfold monthIndex
  omega

theorem ble_of_monthIndex_lt {a b : Date} (ha : a.Valid) (hb : b.Valid)
    (h : monthIndex a < monthIndex b) : Date.ble a b = true := by
  obtain ⟨ha1, ha2, -, -⟩ := ha
  obtain ⟨hb1, hb2, -, -⟩ := hb
  rw [ble_iff]
  unfold monthIndex at h
  omega

theorem addMonths_valid (d : Date) (n : Int) (hd : d.Valid) (hn : 0 ≤ n) :
    (addMonths d n).Valid := by
  obtain ⟨h1, h2, h3, h4⟩ := hd
  have h28 := daysInMonth_ge (((12 * (d.year : Int) + ((d.month : Int) - 1) + n) / 12).toNat)
    (((12 * (d.year : Int) + ((d.month : Int) - 1) + n) % 12).toNat + 1)
  refine ⟨?_, ?_, ?_, ?_⟩ <;> simp only [addMonths] <;> omega

theorem monthIndex_addMonths (d : Date) (n : Int) (hd : d.Valid) (hn : 0 ≤ n) :
    monthIndex (addMonths d n) = monthIndex d + n.toNat := by
  obtain ⟨h1, h2, -, -⟩ := hd
  simp only [addMonths, monthIndex]
  omega

/-- The `k`-fold successive addition of `f` months, as the loop variable of
`get_due_dates` evolves: `iterAdd d f k` is `current` after `k` iterations
of `current += relativedelta(months=f)` starting from `d`. -/
def iterAdd (d : Date) (f : Int) : Nat → Date
  | 0 => d
  | k + 1 => iterAdd (addMonths d f) f k

theorem iterAdd_valid (f : Int) (hf : 0 ≤ f) :
    ∀ (k : Nat) (d : Date), d.Valid → (iterAdd d f k).Valid
  | 0, _, hd => hd
  | k + 1, d, hd => iterAdd_valid f hf k _ (addMonths_valid d f hd hf)

theorem monthIndex_iterAdd (f : Int) (hf : 0 ≤ f) :
    ∀ (k : Nat) (d : Date), d.Valid →
      monthIndex (iterAdd d f k) = monthIndex d + k * f.toNat := by
  intro k
  induction k with
  | zero => intro d _; simp [iterAdd]
  | succ k ih =>
    intro d hd
    have h1 := ih (addMonths d f) (addMonths_valid d f hd hf)
    have h2 := monthIndex_addMonths d f hd hf
    have h3 : (k + 1) * f.toNat = k * f.toNat + f.toNat := Nat.succ_mul k f.toNat
    simp only [iterAdd] at *
    omega

/-- The body of `get_due_dates`' `while current <= until` loop, with explicit
fuel.  `none` means the fuel ran out, i.e. the Python loop would still be
running: the limit over all fuels models (non-)termination faithfully. -/
def dueDatesFuel : Nat → Date → Int → Date → Option (List Date)
  | 0, _, _, _ => none
  | fuel + 1, current, f, u =>
    if Date.ble current u then
      match dueDatesFuel fuel (addMonths current f) f u with
      | none => none
      | some rest => some (current :: rest)
    else some []

/-- `get_due_dates(start, freq_months, until)` from `rental_tracker_app.py`:
collect `current = start, start+f, ...` while `current <= until`.  The fuel
budget `monthIndex until + 1 - monthIndex start + 1` is sufficient for every
terminating run (frequency ≥ 1, valid dates), so `none` is returned exactly
on the runs where the Python loop does not terminate. -/
def get_due_dates (start : Date) (freq_months : Int) (u : Date) : Option (List Date) :=
  dueDatesFuel ((monthIndex u + 1 - monthIndex start) + 1) start freq_months u

theorem dueDatesFuel_eq (f : Int) (hf : 1 ≤ f) (u : Date) (hu : u.Valid) :
    ∀ (fuel : Nat) (c : Date), c.Valid → 1 ≤ fuel →
      monthIndex u + 2 ≤ fuel + monthIndex c →
      ∃ n, dueDatesFuel fuel c f u = some ((List.range n).map (iterAdd c f)) ∧
        ∀ k, k < n ↔ Date.ble (iterAdd c f k) u = true := by
  intro fuel
  induction fuel with
  | zero => intro c _ h; omega
  | succ fuel ih =>
    intro c hc _ hbound
    by_cases hcu : Date.ble c u = true
    · have hc' : (addMonths c f).Valid := addMonths_valid c f hc (by omega)
      have hmi' : monthIndex (addMonths c f) = monthIndex c + f.toNat :=
        monthIndex_addMonths c f hc (by omega)
      have hle : monthIndex c ≤ monthIndex u := monthIndex_le_of_ble hc hu hcu
      have hftn : 1 ≤ f.toNat := by omega
      obtain ⟨n, hn, hiff⟩ := ih (addMonths c f) hc' (by omega) (by omega)
      refine ⟨n + 1, ?_, ?_⟩
      · simp only [dueDatesFuel, hcu, if_true, hn]
        rw [List.range_succ_eq_map]
        simp only [List.map_cons, List.map_map]
        rfl
      · intro k
        cases k with
        | zero => simpa [iterAdd] using hcu
        | succ k =>
          have h := hiff k
          simp only [iterAdd]
          simpa [Nat.succ_lt_succ_iff] using h
    · have hcu' : Date.ble c u = false := by
        cases h : Date.ble c u
        · rfl
        · exact absurd h hcu
      refine ⟨0, ?_, ?_⟩
      · simp [dueDatesFuel, hcu']
      · intro k
        constructor
        · intro h; exact absurd h (Nat.not_lt_zero k)
        · intro hk
          exfalso
          cases k with
          | zero => simp [iterAdd] at hk; exact hcu hk
          | succ k =>
            have hkv : (iterAdd c f (k + 1)).Valid := iterAdd_valid f (by omega) _ c hc
            have hmi : monthIndex (iterAdd c f (k + 1)) = monthIndex c + (k + 1) * f.toNat :=
              monthIndex_iterAdd f (by omega) (k + 1) c hc
            have huc : Date.ble u c = true := ble_of_not_ble hcu'
            have h1 : monthIndex u ≤ monthIndex c := monthIndex_le_of_ble hu hc huc
            have h2 : monthIndex (iterAdd c f (k + 1)) ≤ monthIndex u :=
              monthIndex_le_of_ble hkv hu hk
            have hpos : 1 ≤ (k + 1) * f.toNat :=
              Nat.one_le_iff_ne_zero.mpr (Nat.mul_ne_zero (by omega) (by omega))
            -- iterAdd has moved at least one month forward, yet is still ≤ u ≤ c
            have h3 : Date.ble (iterAdd c f (k + 1)) c = true := ble_trans hk huc
            omega

theorem get_due_dates_eq (start u : Date) (f : Int) (hf : 1 ≤ f)
    (hs : start.Valid) (hu : u.Valid) :
    ∃ n, get_due_dates start f u = some ((List.range n).map (iterAdd start f)) ∧
      ∀ k, k < n ↔ Date.ble (iterAdd start f k) u = true :=
  dueDatesFuel_eq f hf u hu _ start hs (by omega) (by omega)

theorem ble_start_iterAdd (start : Date) (f : Int) (hf : 1 ≤ f)
    (hs : start.Valid) (k : Nat) : Date.ble start (iterAdd start f k) = true := by
  cases k with
  | zero => exact ble_refl start
  | succ k =>
    have hkv : (iterAdd start f (k + 1)).Valid := iterAdd_valid f (by omega) _ start hs
    have hmi : monthIndex (iterAdd start f (k + 1)) = monthIndex start + (k + 1) * f.toNat :=
      monthIndex_iterAdd f (by omega) (k + 1) start hs
    have hpos : 1 ≤ (k + 1) * f.toNat :=
      Nat.one_le_iff_ne_zero.mpr (Nat.mul_ne_zero (by omega) (by omega))
    exact ble_of_monthIndex_lt hs hkv (by omega)

/-- A row of the `tenants` table, as unpacked by `calculate_status`.
The start date is held as a `Date` (the source stores an ISO string and
parses it back with `strptime` before any computation). -/
structure Tenant where
  id : Nat
  unit : String
  name : String
  phone : String
  start_date : Date
  end_date : Option Date
  rent : ℚ
  frequency : String
  ttype : String
deriving DecidableEq

/-- A row of the `payments` table. -/
structure Payment where
  id : Nat
  tenant_id : Nat
  due_date : Date
  amount_due : ℚ
  amount_paid : ℚ
  payment_date : Date
  method : String
deriving DecidableEq

/-- The `freq_map` dictionary of `rental_tracker_app.py`. -/
def freq_map (s : String) : Option Int :=
  if s = "Monthly" then some 1
  else if s = "Quarterly" then some 3
  else if s = "Semi-Annual" then some 6
  else if s = "Annual" then some 12
  else none

/-- `SELECT SUM(amount_paid) FROM payments WHERE tenant_id=? ... or 0.0`:
the sum of `amount_paid` over the tenant's payments, `0` for the empty list. -/
def totalPaid (payments : List Payment) : ℚ :=
  payments.foldl (fun acc p => acc + p.amount_paid) 0

/-- Days from year 1 Jan 1 to year `y` Jan 1 in the proleptic Gregorian
calendar (as `datetime.date.toordinal`, shifted by one). -/
def daysBeforeYear (y : Nat) : Nat :=
  365 * (y - 1) + (y - 1) / 4 - (y - 1) / 100 + (y - 1) / 400

/-- Days in year `y` strictly before month `m`. -/
def daysBeforeMonth (y m : Nat) : Nat :=
  ((List.range (m - 1)).map (fun k => daysInMonth y (k + 1))).sum

/-- Rank of a date on the day time-line (Python's `date.toordinal` minus 1). -/
def toDays (d : Date) : Nat :=
  daysBeforeYear d.year + daysBeforeMonth d.year d.month + (d.day - 1)

/-- `(b - a).days` for Python dates: signed day difference. -/
def daysBetween (a b : Date) : Int := (toDays b : Int) - (toDays a : Int)

/-- `calculate_status(tenant_row)` from `rental_tracker_app.py`.  The two
ambient dependencies of the source — the payments the cursor reads for the
tenant, and `date.today()` — are passed explicitly as `payments` and `today`.
Returns `none` exactly when the `get_due_dates` loop would not terminate. -/
def calculate_status (t : Tenant) (payments : List Payment) (today : Date) :
    Option (ℚ × String) :=
  let freq_m : Int := (freq_map t.frequency).getD 1
  match get_due_dates t.start_date freq_m today with
  | none => none
  | some due_dates =>
    let expected_count := due_dates.length
    let expected_amount : ℚ := (expected_count : ℚ) * t.rent
    let paid := totalPaid payments
    let balance := expected_amount - paid
    let status : String :=
      if balance ≤ 0 then "Paid"
      else if due_dates.any (fun d => Date.blt d today) then "Overdue"
      else
        let next_due := addMonths t.start_date (freq_m * (expected_count : Int))
        if daysBetween today next_due ≤ 7 then "Due Soon"
        else "Unpaid"
    some (balance, status)

/-- The status derivation of the Add Payment form in
`rental_dashboard_streamlit.py`. -/
def add_payment_status (amount_due amount_paid : ℚ)
    (due_date payment_date : Date) : String :=
  if amount_paid = amount_due then "Paid"
  else if amount_paid = 0 then "Unpaid"
  else if Date.blt due_date payment_date then "Overdue"
  else "Partial"

/-- Spec-side reading of §4.1/§8 for comparison with `get_due_dates`: the
dates `start + k*f months` (direct month addition of the multiple, clamped)
for `k = 0, 1, ...`, keeping those `≤ u`.  The range bound exceeds every `k`
whose date can still be `≤ u`. -/
def specMultiples (start : Date) (f : Int) (u : Date) : List Date :=
  ((List.range (monthIndex u + 2 - monthIndex start)).map
    (fun k => addMonths start (f * (k : Int)))).filter (fun d => Date.ble d u)

theorem freq_map_getD_pos (s : String) : 1 ≤ (freq_map s).getD 1 := by
  unfold freq_map
  repeat' split
  all_goals simp [Option.getD]

/-- C2 counterexample data: with start 2024-01-31 and monthly frequency the
loop iterates `Jan 31 → Feb 29 → Mar 29` (the day, once clamped, stays
clamped), while the direct multiple `start + 2 months` is Mar 31. -/
theorem get_due_dates_not_direct_multiples :
    get_due_dates ⟨2024, 1, 31⟩ 1 ⟨2024, 3, 30⟩ =
      some [⟨2024, 1, 31⟩, ⟨2024, 2, 29⟩, ⟨2024, 3, 29⟩] ∧
    addMonths ⟨2024, 1, 31⟩ (1 * 2) = ⟨2024, 3, 31⟩ ∧
    Date.ble ⟨2024, 3, 31⟩ ⟨2024, 3, 30⟩ = false ∧
    specMultiples ⟨2024, 1, 31⟩ 1 ⟨2024, 3, 30⟩ = [⟨2024, 1, 31⟩, ⟨2024, 2, 29⟩] ∧
    (specMultiples ⟨2024, 1, 31⟩ 1 ⟨2024, 3, 30⟩).length ≠ 3 := by
  refine ⟨by decide, by decide, by decide, by decide, by decide⟩

/-- C2 (amended): `get_due_dates start f u` returns, in order, the successive
additions `start, start + f months, (start + f) + f months, ...` (`iterAdd`),
exactly those that are `≤ u`; every returned date lies in `[start, u]`;
`start > u` yields the empty sequence and `start = u` yields `[start]`. -/
theorem get_due_dates_succ_add (start u : Date) (f : Int) (hf : 1 ≤ f)
    (hs : start.Valid) (hu : u.Valid) :
    ∃ n, get_due_dates start f u = some ((List.range n).map (iterAdd start f)) ∧
      (∀ k, k < n ↔ Date.ble (iterAdd start f k) u = true) ∧
      (∀ d ∈ (List.range n).map (iterAdd start f),
        Date.ble start d = true ∧ Date.ble d u = true) ∧
      (Date.ble start u = false → n = 0) ∧
      (start = u → get_due_dates start f u = some [start]) := by
  obtain ⟨n, hn, hiff⟩ := get_due_dates_eq start u f hf hs hu
  refine ⟨n, hn, hiff, ?_, ?_, ?_⟩
  · intro d hd
    simp only [List.mem_map, List.mem_range] at hd
    obtain ⟨k, hk, rfl⟩ := hd
    exact ⟨ble_start_iterAdd start f hf hs k, (hiff k).mp hk⟩
  · intro hsu
    by_contra h
    have h0 : 0 < n := by omega
    have := (hiff 0).mp h0
    simp only [iterAdd] at this
    rw [this] at hsu
    simp at hsu
  · intro h
    subst h
    have h1 : 0 < n := (hiff 0).mpr (by simp only [iterAdd]; exact ble_refl start)
    have h2 : ¬ 1 < n := by
      intro h2
      have hb := (hiff 1).mp h2
      have hkv : (iterAdd start f 1).Valid := iterAdd_valid f (by omega) 1 start hs
      have hmi : monthIndex (iterAdd start f 1) = monthIndex start + 1 * f.toNat :=
        monthIndex_iterAdd f (by omega) 1 start hs
      have := monthIndex_le_of_ble hkv hs hb
      omega
    have hn1 : n = 1 := by omega
    rw [hn, hn1]
    simp [List.range_succ, iterAdd]

/-- C9: with the frequency and start fixed, a later horizon never yields a
shorter schedule, and (for non-negative rent) never a smaller expected
amount `len * rent`. -/
theorem get_due_dates_length_monotone (start h1 h2 : Date) (f : Int) (rent : ℚ)
    (hf : 1 ≤ f) (hs : start.Valid) (h1v : h1.Valid) (h2v : h2.Valid)
    (h12 : Date.ble h1 h2 = true) (hr : 0 ≤ rent) :
    ∃ L1 L2, get_due_dates start f h1 = some L1 ∧ get_due_dates start f h2 = some L2 ∧
      L1.length ≤ L2.length ∧
      (L1.length : ℚ) * rent ≤ (L2.length : ℚ) * rent := by
  obtain ⟨n1, e1, i1⟩ := get_due_dates_eq start h1 f hf hs h1v
  obtain ⟨n2, e2, i2⟩ := get_due_dates_eq start h2 f hf hs h2v
  have hn : n1 ≤ n2 := by
    rcases Nat.eq_zero_or_pos n1 with h | h
    · omega
    · have hb1 := (i1 (n1 - 1)).mp (by omega)
      have hb2 := (i2 (n1 - 1)).mpr (ble_trans hb1 h12)
      omega
  refine ⟨_, _, e1, e2, by simpa using hn, ?_⟩
  have hq : ((List.range n1).map (iterAdd start f)).length ≤
      ((List.range n2).map (iterAdd start f)).length := by simpa using hn
  exact mul_le_mul_of_nonneg_right (by exact_mod_cast hq) hr

/-- C6: dateutil month arithmetic keeps the day when the target month has it
and clamps to the month's last day otherwise; hence from start 2024-01-31
with monthly frequency the second generated due date is exactly 2024-02-29
for every horizon admitting it. -/
theorem addMonths_clamps :
    (∀ (d : Date) (n : Int), (addMonths d n).day =
      min d.day (daysInMonth (addMonths d n).year (addMonths d n).month)) ∧
    (∀ (d : Date) (n : Int),
      d.day ≤ daysInMonth (addMonths d n).year (addMonths d n).month →
      (addMonths d n).day = d.day) ∧
    (∀ h : Date, h.Valid → Date.ble ⟨2024, 2, 29⟩ h = true →
      ∃ L, get_due_dates ⟨2024, 1, 31⟩ 1 h = some L ∧ L[1]? = some ⟨2024, 2, 29⟩) := by
  refine ⟨fun d n => rfl, fun d n h => by simp only [addMonths] at h ⊢; omega, ?_⟩
  intro h hv hble
  obtain ⟨n, hn, hiff⟩ := get_due_dates_eq ⟨2024, 1, 31⟩ h 1 (by omega) (by decide) hv
  have h29 : iterAdd ⟨2024, 1, 31⟩ 1 1 = ⟨2024, 2, 29⟩ := by decide
  have h1n : 1 < n := (hiff 1).mpr (by rw [h29]; exact hble)
  refine ⟨_, hn, ?_⟩
  rw [List.getElem?_map]
  rw [List.getElem?_range h1n]
  simp [h29]

/-- C3: the source performs no validation of the frequency: with
`freq_months = 0` and `start ≤ until` the loop body never advances `current`,
so the loop runs forever — no fuel suffices, and the model returns `none`
(divergence) instead of raising any error. -/
theorem get_due_dates_freq_zero_diverges :
    (∀ fuel, dueDatesFuel fuel ⟨2024, 1, 1⟩ 0 ⟨2024, 1, 1⟩ = none) ∧
    get_due_dates ⟨2024, 1, 1⟩ 0 ⟨2024, 1, 1⟩ = none := by
  have hstep : addMonths ⟨2024, 1, 1⟩ 0 = ⟨2024, 1, 1⟩ := by decide
  have h : ∀ fuel, dueDatesFuel fuel ⟨2024, 1, 1⟩ 0 ⟨2024, 1, 1⟩ = none := by
    intro fuel
    induction fuel with
    | zero => rfl
    | succ fuel ih => simp [dueDatesFuel, hstep, ih, ble_refl]
  exact ⟨h, h _⟩

/-- C1: `calculate_status` returns
`balance = len(due_dates) * rent - totalPaid(payments)` and derives the
status in priority order Paid / Overdue / Due Soon / Unpaid, with the
`Overdue` test over the generated schedule and the `Due Soon` window
`next_due - today ≤ 7` at `next_due = start + f * len(due_dates)` months. -/
theorem calculate_status_formula (t : Tenant) (payments : List Payment) (today : Date)
    (hs : t.start_date.Valid) (ht : today.Valid) (hr : 0 ≤ t.rent) :
    ∃ dd, get_due_dates t.start_date ((freq_map t.frequency).getD 1) today = some dd ∧
      calculate_status t payments today = some
        ((dd.length : ℚ) * t.rent - totalPaid payments,
         if (dd.length : ℚ) * t.rent - totalPaid payments ≤ 0 then "Paid"
         else if ∃ d ∈ dd, Date.blt d today = true then "Overdue"
         else if daysBetween today
             (addMonths t.start_date (((freq_map t.frequency).getD 1) * (dd.length : Int))) ≤ 7
           then "Due Soon"
         else "Unpaid") := by
  have hf := freq_map_getD_pos t.frequency
  obtain ⟨n, hn, -⟩ := get_due_dates_eq t.start_date today _ hf hs ht
  refine ⟨_, hn, ?_⟩
  simp only [calculate_status, hn]
  refine congrArg some (congrArg (Prod.mk _) ?_)
  exact if_congr Iff.rfl rfl (if_congr List.any_eq_true rfl rfl)

/-- C5: a due date equal to `today` is not counted as overdue (the source
compares with `<`, strictly); in particular a tenant starting 2024-01-01,
Monthly, rent 1000, no payments, evaluated at 2024-01-01, has schedule
`[2024-01-01]`, balance 1000, and status `Unpaid`. -/
theorem calculate_status_strict_overdue :
    (∀ (t : Tenant) (payments : List Payment) (today : Date) (dd : List Date),
      get_due_dates t.start_date ((freq_map t.frequency).getD 1) today = some dd →
      (∀ d ∈ dd, Date.blt d today = false) →
      ∀ bal st, calculate_status t payments today = some (bal, st) → st ≠ "Overdue") ∧
    get_due_dates ⟨2024, 1, 1⟩ 1 ⟨2024, 1, 1⟩ = some [⟨2024, 1, 1⟩] ∧
    calculate_status ⟨1, "U1", "A", "050", ⟨2024, 1, 1⟩, none, 1000, "Monthly", "Residential"⟩
      [] ⟨2024, 1, 1⟩ = some (1000, "Unpaid") := by
  refine ⟨?_, by decide, ?_⟩
  · intro t payments today dd hdd hnone bal st hcs
    simp only [calculate_status, hdd, Option.some.injEq, Prod.mk.injEq] at hcs
    obtain ⟨-, h2⟩ := hcs
    subst h2
    have hany : dd.any (fun d => Date.blt d today) = false := by
      rw [List.any_eq_false]
      intro d hd
      simp [hnone d hd]
    split_ifs with h1 h2 h3
    · decide
    · exact absurd h2 (by simp [hany])
    · decide
    · decide
  · have hdd : get_due_dates (⟨2024, 1, 1⟩ : Date) ((freq_map "Monthly").getD 1) ⟨2024, 1, 1⟩
        = some [⟨2024, 1, 1⟩] := by decide
    have hblt : Date.blt ⟨2024, 1, 1⟩ ⟨2024, 1, 1⟩ = false := by decide
    have hnd : addMonths ⟨2024, 1, 1⟩ ((freq_map "Monthly").getD 1 * (1 : Int)) = ⟨2024, 2, 1⟩ := by
      decide
    have hnd2 : addMonths ⟨2024, 1, 1⟩ ((freq_map "Monthly").getD 1) = ⟨2024, 2, 1⟩ := by decide
    have hdays : daysBetween ⟨2024, 1, 1⟩ ⟨2024, 2, 1⟩ = 31 := by decide
    simp only [calculate_status, hdd, hblt, List.length_cons, List.length_nil, List.any_cons,
      List.any_nil, Bool.or_false, Nat.cast_one, Int.Nat.cast_ofNat_Int, mul_one, hnd, hnd2,
      hdays, totalPaid, List.foldl_nil]
    norm_num
    intro hcond
    rw [hnd2, hdays] at hcond
    norm_num at hcond

/-- C7: the aggregate status computation is deterministic in its inputs:
with the payments snapshot and the evaluation date made explicit arguments
(the source reads them from the database cursor and `date.today()`),
identical inputs give identical outputs. -/
theorem calculate_status_deterministic (t t' : Tenant) (p p' : List Payment)
    (d d' : Date) (h1 : t = t') (h2 : p = p') (h3 : d = d') :
    calculate_status t p d = calculate_status t' p' d' := by
  subst h1; subst h2; subst h3; rfl

/-- C4: the Add Payment form derives the per-record status by testing, in
order: `amount_paid == amount_due` → Paid, `amount_paid == 0` → Unpaid,
`payment_date > due_date` → Overdue, otherwise Partial. -/
theorem add_payment_status_cases (ad ap : ℚ) (dd pd : Date) :
    (ap = ad → add_payment_status ad ap dd pd = "Paid") ∧
    (ap ≠ ad → ap = 0 → add_payment_status ad ap dd pd = "Unpaid") ∧
    (ap ≠ ad → ap ≠ 0 → Date.blt dd pd = true →
      add_payment_status ad ap dd pd = "Overdue") ∧
    (ap ≠ ad → ap ≠ 0 → Date.blt dd pd = false →
      add_payment_status ad ap dd pd = "Partial") := by
  refine ⟨fun h => by simp [add_payment_status, h],
    fun h1 h2 => by subst h2; simp [add_payment_status, h1],
    fun h1 h2 h3 => by simp [add_payment_status, h1, h2, h3],
    fun h1 h2 h3 => by simp [add_payment_status, h1, h2, h3]⟩

/-- C10: the Paid test precedes the Unpaid test, so a record with
`amount_due = 0` and `amount_paid = 0` is reported Paid, never Unpaid. -/
theorem add_payment_status_zero_due (dd pd : Date) :
    add_payment_status 0 0 dd pd = "Paid" := by
  simp [add_payment_status]

/-- C8: `totalPaid` is 0 on the empty list, sums `amount_paid` over all
payments (it reads no date field: it depends only on the multiset of
`amount_paid` values), and is invariant under permutation of the payments. -/
theorem totalPaid_sum :
    totalPaid [] = 0 ∧
    (∀ ps : List Payment, totalPaid ps = (ps.map Payment.amount_paid).sum) ∧
    (∀ ps qs : List Payment, ps.map Payment.amount_paid = qs.map Payment.amount_paid →
      totalPaid ps = totalPaid qs) ∧
    (∀ ps qs : List Payment, ps.Perm qs → totalPaid ps = totalPaid qs) := by
  have key : ∀ (ps : List Payment) (a : ℚ),
      ps.foldl (fun acc p => acc + p.amount_paid) a = a + (ps.map Payment.amount_paid).sum := by
    intro ps
    induction ps with
    | nil => intro a; simp
    | cons p ps ih =>
      intro a
      simp only [List.foldl_cons, List.map_cons, List.sum_cons, ih]
      ring
  have h2 : ∀ ps : List Payment, totalPaid ps = (ps.map Payment.amount_paid).sum := by
    intro ps
    simpa using key ps 0
  refine ⟨rfl, h2, ?_, ?_⟩
  · intro ps qs h
    rw [h2, h2, h]
  · intro ps qs h
    rw [h2, h2]
    exact List.Perm.sum_eq (h.map Payment.amount_paid)

theorem get_due_dates_succ_add_witness :
    get_due_dates ⟨2024, 1, 1⟩ 1 ⟨2024, 1, 1⟩ = some [⟨2024, 1, 1⟩] := by
  have h := get_due_dates_succ_add ⟨2024, 1, 1⟩ ⟨2024, 1, 1⟩ 1 (by norm_num) (by decide) (by decide)
  obtain ⟨n, -, -, -, -, hsing⟩ := h
  exact hsing rfl

theorem get_due_dates_length_monotone_witness :
    ∃ L1 L2, get_due_dates ⟨2024, 1, 1⟩ 1 ⟨2024, 2, 1⟩ = some L1 ∧
      get_due_dates ⟨2024, 1, 1⟩ 1 ⟨2024, 6, 1⟩ = some L2 ∧
      L1.length ≤ L2.length ∧
      (L1.length : ℚ) * 500 ≤ (L2.length : ℚ) * 500 :=
  get_due_dates_length_monotone ⟨2024, 1, 1⟩ ⟨2024, 2, 1⟩ ⟨2024, 6, 1⟩ 1 500
    (by norm_num) (by decide) (by decide) (by decide) (by decide) (by norm_num)

theorem addMonths_clamps_witness :
    ∃ L, get_due_dates ⟨2024, 1, 31⟩ 1 ⟨2024, 2, 29⟩ = some L ∧
      L[1]? = some ⟨2024, 2, 29⟩ :=
  addMonths_clamps.2.2 ⟨2024, 2, 29⟩ (by decide) (by decide)

theorem calculate_status_formula_witness :
    ∃ dd, get_due_dates ⟨2024, 1, 1⟩ ((freq_map "Monthly").getD 1) ⟨2024, 4, 1⟩ = some dd ∧
      calculate_status ⟨1, "U1", "A", "050", ⟨2024, 1, 1⟩, none, 1000, "Monthly", "Residential"⟩
          [] ⟨2024, 4, 1⟩ = some
        ((dd.length : ℚ) * 1000 - totalPaid [],
         if (dd.length : ℚ) * 1000 - totalPaid [] ≤ 0 then "Paid"
         else if ∃ d ∈ dd, Date.blt d ⟨2024, 4, 1⟩ = true then "Overdue"
         else if daysBetween ⟨2024, 4, 1⟩
             (addMonths ⟨2024, 1, 1⟩ (((freq_map "Monthly").getD 1) * (dd.length : Int))) ≤ 7
           then "Due Soon"
         else "Unpaid") :=
  calculate_status_formula
    ⟨1, "U1", "A", "050", ⟨2024, 1, 1⟩, none, 1000, "Monthly", "Residential"⟩
    [] ⟨2024, 4, 1⟩ (by decide) (by decide) (by norm_num)

theorem calculate_status_strict_overdue_witness :
    get_due_dates ⟨2024, 1, 1⟩ ((freq_map "Monthly").getD 1) ⟨2024, 1, 1⟩ =
      some [⟨2024, 1, 1⟩] ∧
    ("Unpaid" : String) ≠ "Overdue" :=
  ⟨by decide, calculate_status_strict_overdue.1
    ⟨1, "U1", "A", "050", ⟨2024, 1, 1⟩, none, 1000, "Monthly", "Residential"⟩ [] ⟨2024, 1, 1⟩
    [⟨2024, 1, 1⟩] (by decide) (by decide) 1000 "Unpaid"
    calculate_status_strict_overdue.2.2⟩

theorem calculate_status_deterministic_witness :
    calculate_status ⟨1, "U1", "A", "050", ⟨2024, 1, 1⟩, none, 1000, "Monthly", "Residential"⟩
      [] ⟨2024, 1, 1⟩ =
    calculate_status ⟨1, "U1", "A", "050", ⟨2024, 1, 1⟩, none, 1000, "Monthly", "Residential"⟩
      [] ⟨2024, 1, 1⟩ :=
  calculate_status_deterministic _ _ _ _ _ _ rfl rfl rfl

theorem add_payment_status_cases_witness :
    add_payment_status 1000 500 ⟨2024, 1, 1⟩ ⟨2024, 1, 5⟩ = "Overdue" :=
  (add_payment_status_cases 1000 500 ⟨2024, 1, 1⟩ ⟨2024, 1, 5⟩).2.2.1
    (by norm_num) (by norm_num) (by decide)

theorem totalPaid_sum_witness :
    totalPaid [⟨1, 1, ⟨2024, 1, 1⟩, 1000, 400, ⟨2024, 1, 2⟩, "Cash"⟩,
               ⟨2, 1, ⟨2024, 2, 1⟩, 1000, 600, ⟨2024, 2, 2⟩, "Cash"⟩] =
    totalPaid [⟨2, 1, ⟨2024, 2, 1⟩, 1000, 600, ⟨2024, 2, 2⟩, "Cash"⟩,
               ⟨1, 1, ⟨2024, 1, 1⟩, 1000, 400, ⟨2024, 1, 2⟩, "Cash"⟩] :=
  totalPaid_sum.2.2.2 _ _ (List.Perm.swap _ _ _)

end Rental
